import Mathlib

/-!
Verification of the CureSight triage safety-override and response-validation
pipeline (supabase edge functions `analyze-symptoms` and `medication-info`).

The TypeScript handlers are shallowly embedded as pure Lean functions over
`String`/`List Char`.  JavaScript strings are modelled as `List Char`
(via `String.data`); `toLowerCase` is modelled by mapping `Char.toLower`
(exact for the ASCII data handled here); `String.prototype.includes` is
modelled by `containsSub`; a case-insensitive global regex replace of a
literal pattern is modelled by `ciReplaceAll` (leftmost, non-overlapping,
scan continues after each replacement, exactly as JS `replace(/pat/gi, r)`
behaves for a metacharacter-free pattern).
-/

namespace CureSight

/-- Lower-case a character list (models `String.prototype.toLowerCase` for
the ASCII data appearing in this repository). -/
def lstr (s : List Char) : List Char := s.map Char.toLower

/-- Boolean list-prefix test (models anchored string matching). -/
def pfx : List Char → List Char → Bool
  | [], _ => true
  | _ :: _, [] => false
  | a :: as, b :: bs => a == b && pfx as bs

/-- Boolean substring test: `pat` occurs contiguously in the argument
(models `String.prototype.includes`). -/
def containsSub (pat : List Char) : List Char → Bool
  | [] => pat.isEmpty
  | c :: t => pfx pat (c :: t) || containsSub pat t

/-- Structural worker for the case-insensitive replace-all; the fuel is an
upper bound on the string length (each step consumes at least one
character, so fuel `s.length` always suffices). -/
def ciReplaceAllGo (pat repl : List Char) : Nat → List Char → List Char
  | _, [] => []
  | 0, s => s
  | n + 1, c :: t =>
    if !pat.isEmpty && pfx (lstr pat) (lstr (c :: t)) then
      repl ++ ciReplaceAllGo pat repl n (List.drop (pat.length - 1) t)
    else
      c :: ciReplaceAllGo pat repl n t

/-- Case-insensitive global replace-all of the literal pattern `pat` by
`repl` (models JS `s.replace(new RegExp(pat, 'gi'), repl)` for a pattern
without regex metacharacters): scan left to right, on a case-insensitive
match emit `repl` and continue after the matched text, otherwise emit the
original character. -/
def ciReplaceAll (pat repl s : List Char) : List Char :=
  ciReplaceAllGo pat repl s.length s

/-- Structural worker for the case-sensitive replace-all. -/
def replaceAllPGo (pat repl : List Char) : Nat → List Char → List Char
  | _, [] => []
  | 0, s => s
  | n + 1, c :: t =>
    if !pat.isEmpty && pfx pat (c :: t) then
      repl ++ replaceAllPGo pat repl n (List.drop (pat.length - 1) t)
    else
      c :: replaceAllPGo pat repl n t

/-- Case-sensitive replace-all; `ciReplaceAll` projects onto it under
`lstr` (proved below), and all occurrence-freedom reasoning happens here. -/
def replaceAllP (pat repl s : List Char) : List Char :=
  replaceAllPGo pat repl s.length s

lemma pfx_nil (l : List Char) : pfx [] l = true := rfl

lemma pfx_cons {a b : Char} {as bs : List Char} :
    pfx (a :: as) (b :: bs) = true ↔ a = b ∧ pfx as bs = true := by
  simp [pfx]

lemma pfx_length : ∀ {x y : List Char}, pfx x y = true → x.length ≤ y.length := by
  intro x
  induction x with
  | nil => intro y _; simp
  | cons a as ih =>
    intro y h
    cases y with
    | nil => simp [pfx] at h
    | cons b bs =>
      rcases pfx_cons.mp h with ⟨_, h2⟩
      simpa using Nat.succ_le_succ (ih h2)

lemma pfx_append_stop : ∀ {x r w : List Char},
    pfx x (r ++ w) = true → x.length ≤ r.length → pfx x r = true := by
  intro x
  induction x with
  | nil => intro r w _ _; exact pfx_nil r
  | cons a as ih =>
    intro r w h hl
    cases r with
    | nil => simp at hl
    | cons b bs =>
      rcases pfx_cons.mp h with ⟨hab, h2⟩
      exact pfx_cons.mpr ⟨hab, ih h2 (by simpa using hl)⟩

lemma pfx_swap : ∀ {r x w : List Char},
    pfx x (r ++ w) = true → r.length ≤ x.length → pfx r x = true := by
  intro r
  induction r with
  | nil => intro x w _ _; exact pfx_nil x
  | cons b bs ih =>
    intro x w h hl
    cases x with
    | nil => simp at hl
    | cons a as =>
      rcases pfx_cons.mp h with ⟨hab, h2⟩
      exact pfx_cons.mpr ⟨hab.symm, ih h2 (by simpa using hl)⟩

lemma pfx_mem : ∀ {x y : List Char} {c : Char},
    pfx x y = true → c ∈ x → c ∈ y := by
  intro x
  induction x with
  | nil => intro y c _ hc; simp at hc
  | cons a as ih =>
    intro y c h hc
    cases y with
    | nil => simp [pfx] at h
    | cons b bs =>
      rcases pfx_cons.mp h with ⟨hab, h2⟩
      rcases List.mem_cons.mp hc with rfl | hc2
      · exact hab ▸ List.mem_cons_self _ _
      · exact List.mem_cons_of_mem _ (ih h2 hc2)

lemma containsSub_nil_pat (s : List Char) : containsSub [] s = true := by
  cases s <;> simp [containsSub, pfx, List.isEmpty]

lemma containsSub_of_pfx {x t : List Char} (h : pfx x t = true) :
    containsSub x t = true := by
  cases t with
  | nil =>
    cases x with
    | nil => rfl
    | cons a as => simp [pfx] at h
  | cons c t' => simp [containsSub, h]

lemma containsSub_append_left {x w : List Char} (u : List Char)
    (h : containsSub x w = true) : containsSub x (u ++ w) = true := by
  induction u with
  | nil => simpa using h
  | cons c u' ih =>
    simp only [List.cons_append, containsSub, Bool.or_eq_true]
    exact Or.inr ih

/-- Every occurrence of `x` in `r ++ w` either starts inside `r` (so `x`
matches at some nonempty suffix of `r`) or lies entirely inside `w`. -/
lemma containsSub_split : ∀ {x : List Char} (r w : List Char),
    containsSub x (r ++ w) = true →
    (∃ r' u, u ++ r' = r ∧ r' ≠ [] ∧ pfx x (r' ++ w) = true) ∨
      containsSub x w = true := by
  intro x r
  induction r with
  | nil => intro w h; exact Or.inr (by simpa using h)
  | cons c r'' ih =>
    intro w h
    simp only [List.cons_append, containsSub, Bool.or_eq_true] at h
    rcases h with h | h
    · exact Or.inl ⟨c :: r'', [], rfl, by simp, by simpa using h⟩
    · rcases ih w h with ⟨r', u, hu, hne, hp⟩ | h2
      · exact Or.inl ⟨r', c :: u, by simp [hu], hne, hp⟩
      · exact Or.inr h2

lemma mem_of_getLast?_eq : ∀ {l : List Char} {a : Char}, l.getLast? = some a → a ∈ l := by
  intro l
  induction l with
  | nil => intro a h; simp at h
  | cons b l' ih =>
    intro a h
    cases l' with
    | nil => simp [List.getLast?] at h; simp [h]
    | cons c l'' =>
      rw [List.getLast?_cons_cons] at h
      exact List.mem_cons_of_mem _ (ih h)

/-- The last element of a list belongs to every nonempty suffix of it. -/
lemma last_mem_suffix : ∀ (u r' : List Char) (a : Char), r' ≠ [] →
    (u ++ r').getLast? = some a → a ∈ r' := by
  intro u
  induction u with
  | nil => intro r' a _ h; exact mem_of_getLast?_eq (by simpa using h)
  | cons c u' ih =>
    intro r' a hne h
    have hne2 : u' ++ r' ≠ [] := fun hn => hne (List.append_eq_nil.mp hn).2
    cases hur : u' ++ r' with
    | nil => exact absurd hur hne2
    | cons d l =>
      rw [List.cons_append, hur, List.getLast?_cons_cons, ← hur] at h
      exact ih r' a hne h

lemma containsSub_cons_false {x : List Char} {c : Char} {t : List Char}
    (h : containsSub x (c :: t) = false) :
    pfx x (c :: t) = false ∧ containsSub x t = false := by
  simp only [containsSub, Bool.or_eq_false_iff] at h
  exact h

lemma containsSub_nonnil_nil {x : List Char} (hx : x ≠ []) :
    containsSub x [] = false := by
  cases x with
  | nil => exact absurd rfl hx
  | cons a as => rfl

/-- Prefix reflection: under the boundary conditions relating the pattern
`X` and the replacement `R`, any suffix `z` of `X` that is a prefix of a
replace-all output is already a prefix of the input (replacement blocks can
never supply a prefix of such a `z`). -/
lemma pfx_reflect (X B R : List Char)
    (hXc : (')' : Char) ∉ X)
    (hRlast : R.getLast? = some ')')
    (hsuf : ∀ p u, u ++ p = X → p ≠ [] → pfx p R = false) :
    ∀ n u z, u.length ≤ n → (∃ v, v ++ z = X) →
      pfx z (replaceAllPGo B R n u) = true → pfx z u = true := by
  intro n
  induction n with
  | zero =>
    intro u z hu hz hp
    have : u = [] := List.length_eq_zero.mp (Nat.le_zero.mp hu)
    subst this
    simp only [replaceAllPGo] at hp
    cases z with
    | nil => rfl
    | cons z0 zt => simp [pfx] at hp
  | succ n ih =>
    intro u z hu hz hp
    cases u with
    | nil =>
      simp only [replaceAllPGo] at hp
      cases z with
      | nil => rfl
      | cons z0 zt => simp [pfx] at hp
    | cons c t =>
      by_cases hc : (!B.isEmpty && pfx B (c :: t)) = true
      · rw [show replaceAllPGo B R (n + 1) (c :: t)
              = R ++ replaceAllPGo B R n (List.drop (B.length - 1) t) from by
            simp [replaceAllPGo, hc]] at hp
        cases z with
        | nil => rfl
        | cons z0 zt =>
          rcases le_or_lt (z0 :: zt).length R.length with hle | hlt
          · have hzR : pfx (z0 :: zt) R = true := pfx_append_stop hp hle
            rcases hz with ⟨v, hv⟩
            have := hsuf (z0 :: zt) v hv (by simp)
            rw [this] at hzR
            exact absurd hzR (by simp)
          · have hRz : pfx R (z0 :: zt) = true := pfx_swap hp (Nat.le_of_lt hlt)
            have h1 : (')' : Char) ∈ R := mem_of_getLast?_eq hRlast
            have h2 : (')' : Char) ∈ z0 :: zt := pfx_mem hRz h1
            rcases hz with ⟨v, hv⟩
            have h3 : (')' : Char) ∈ X := by
              rw [← hv]; exact List.mem_append_right v h2
            exact absurd h3 hXc
      · rw [show replaceAllPGo B R (n + 1) (c :: t) = c :: replaceAllPGo B R n t from by
            simp only [replaceAllPGo]; rw [if_neg (by simpa using hc)]] at hp
        cases z with
        | nil => rfl
        | cons z0 zt =>
          rcases pfx_cons.mp hp with ⟨hz0, hzt⟩
          rcases hz with ⟨v, hv⟩
          have hzt' : pfx zt t = true := by
            refine ih t zt (by simpa using Nat.le_of_succ_le_succ hu)
              ⟨v ++ [z0], by simpa using hv⟩ hzt
          exact pfx_cons.mpr ⟨hz0, hzt'⟩

/-- Key lemma: after a case-sensitive replace-all of `B` by `R`, the
string contains no occurrence of `X`, provided either `X` is the replaced
pattern itself or the input was already `X`-free, and the boundary
conditions between `X` and `R` hold (no occurrence of `X` fits inside `R`,
`R` ends with a character foreign to `X`, and no nonempty suffix of `X` is
a prefix of `R`). -/
lemma replaceAllP_free (X B R : List Char)
    (hX : X ≠ [])
    (hXc : (')' : Char) ∉ X)
    (hRlast : R.getLast? = some ')')
    (hXR : containsSub X R = false)
    (hsuf : ∀ p u, u ++ p = X → p ≠ [] → pfx p R = false) :
    ∀ n s, s.length ≤ n → (X = B ∨ containsSub X s = false) →
      containsSub X (replaceAllPGo B R n s) = false := by
  intro n
  induction n with
  | zero =>
    intro s hs _
    have : s = [] := List.length_eq_zero.mp (Nat.le_zero.mp hs)
    subst this
    simp only [replaceAllPGo]
    exact containsSub_nonnil_nil hX
  | succ n ih =>
    intro s hs hd
    cases s with
    | nil =>
      simp only [replaceAllPGo]
      exact containsSub_nonnil_nil hX
    | cons c t =>
      by_cases hc : (!B.isEmpty && pfx B (c :: t)) = true
      · rw [show replaceAllPGo B R (n + 1) (c :: t)
              = R ++ replaceAllPGo B R n (List.drop (B.length - 1) t) from by
            simp [replaceAllPGo, hc]]
        by_contra hcon
        rw [Bool.not_eq_false] at hcon
        rcases containsSub_split R _ hcon with ⟨r', u, hu, hne, hp⟩ | h2
        · rcases le_or_lt X.length r'.length with hle | hlt
          · have h1 : pfx X r' = true := pfx_append_stop hp hle
            have h2 : containsSub X r' = true := containsSub_of_pfx h1
            have h3 : containsSub X R = true := by
              rw [← hu]; exact containsSub_append_left u h2
            rw [hXR] at h3; exact absurd h3 (by simp)
          · have hr'x : pfx r' X = true := pfx_swap hp (Nat.le_of_lt hlt)
            have hparen : (')' : Char) ∈ r' :=
              last_mem_suffix u r' ')' hne (hu.symm ▸ hRlast)
            exact absurd (pfx_mem hr'x hparen) hXc
        · have hd' : X = B ∨ containsSub X (List.drop (B.length - 1) t) = false := by
            rcases hd with hXB | hfree
            · exact Or.inl hXB
            · refine Or.inr ?_
              by_contra hdrop
              rw [Bool.not_eq_false] at hdrop
              have : containsSub X (c :: t) = true := by
                have := containsSub_append_left
                  (c :: List.take (B.length - 1) t) hdrop
                rwa [List.cons_append, List.take_append_drop] at this
              rw [hfree] at this; exact absurd this (by simp)
          have hlen : (List.drop (B.length - 1) t).length ≤ n := by
            have := List.length_drop (B.length - 1) t
            have ht : t.length ≤ n := by simpa using Nat.le_of_succ_le_succ hs
            omega
          have := ih _ hlen hd'
          rw [this] at h2; exact absurd h2 (by simp)
      · rw [show replaceAllPGo B R (n + 1) (c :: t) = c :: replaceAllPGo B R n t from by
            simp only [replaceAllPGo]; rw [if_neg (by simpa using hc)]]
        simp only [containsSub, Bool.or_eq_false_iff]
        constructor
        · by_contra hp
          rw [Bool.not_eq_false] at hp
          cases X with
          | nil => exact hX rfl
          | cons x0 xt =>
            rcases pfx_cons.mp hp with ⟨hx0, hxt⟩
            have hxt' : pfx xt t = true :=
              pfx_reflect (x0 :: xt) B R hXc hRlast hsuf n t xt
                (by simpa using Nat.le_of_succ_le_succ hs) ⟨[x0], rfl⟩ hxt
            have hfull : pfx (x0 :: xt) (c :: t) = true := pfx_cons.mpr ⟨hx0, hxt'⟩
            rcases hd with hXB | hfree
            · apply hc
              rw [Bool.and_eq_true]
              refine ⟨?_, hXB ▸ hfull⟩
              rw [← hXB]; simp [List.isEmpty]
            · have : containsSub (x0 :: xt) (c :: t) = true := containsSub_of_pfx hfull
              rw [hfree] at this; exact absurd this (by simp)
        · have hd' : X = B ∨ containsSub X t = false := by
            rcases hd with hXB | hfree
            · exact Or.inl hXB
            · exact Or.inr (containsSub_cons_false hfree).2
          exact ih t (by simpa using Nat.le_of_succ_le_succ hs) hd'

lemma lstr_nil : lstr [] = [] := rfl

lemma lstr_cons (c : Char) (t : List Char) : lstr (c :: t) = c.toLower :: lstr t := rfl

lemma lstr_append (a b : List Char) : lstr (a ++ b) = lstr a ++ lstr b := by
  simp [lstr]

lemma lstr_length (a : List Char) : (lstr a).length = a.length := by
  simp [lstr]

lemma lstr_isEmpty (a : List Char) : (lstr a).isEmpty = a.isEmpty := by
  cases a <;> rfl

lemma lstr_drop (k : Nat) (a : List Char) : lstr (List.drop k a) = List.drop k (lstr a) := by
  simp [lstr, List.map_drop]

/-- The lower-case projection of the case-insensitive replace-all worker
is the case-sensitive worker on the lower-cased data. -/
lemma lstr_ciReplaceAllGo (pat repl : List Char) :
    ∀ n s, lstr (ciReplaceAllGo pat repl n s)
      = replaceAllPGo (lstr pat) (lstr repl) n (lstr s) := by
  intro n
  induction n with
  | zero =>
    intro s
    cases s <;> rfl
  | succ n ih =>
    intro s
    cases s with
    | nil => rfl
    | cons c t =>
      by_cases hc : (!pat.isEmpty && pfx (lstr pat) (lstr (c :: t))) = true
      · rw [show ciReplaceAllGo pat repl (n + 1) (c :: t)
              = repl ++ ciReplaceAllGo pat repl n (List.drop (pat.length - 1) t) from by
            simp [ciReplaceAllGo, hc]]
        rw [show replaceAllPGo (lstr pat) (lstr repl) (n + 1) (lstr (c :: t))
              = lstr repl ++ replaceAllPGo (lstr pat) (lstr repl) n
                  (List.drop ((lstr pat).length - 1) (lstr t)) from by
            rw [lstr_cons]
            simp only [replaceAllPGo]
            rw [if_pos]
            rw [Bool.and_eq_true] at hc ⊢
            refine ⟨by rw [lstr_isEmpty]; exact hc.1, by rw [← lstr_cons]; exact hc.2⟩]
        rw [lstr_append, lstr_length, ← lstr_drop]
        congr 1
        exact ih _
      · rw [show ciReplaceAllGo pat repl (n + 1) (c :: t)
              = c :: ciReplaceAllGo pat repl n t from by
            simp only [ciReplaceAllGo]; rw [if_neg (by simpa using hc)]]
        rw [show replaceAllPGo (lstr pat) (lstr repl) (n + 1) (lstr (c :: t))
              = c.toLower :: replaceAllPGo (lstr pat) (lstr repl) n (lstr t) from by
            rw [lstr_cons]
            simp only [replaceAllPGo]
            rw [if_neg]
            intro hcc
            apply hc
            rw [Bool.and_eq_true] at hcc ⊢
            refine ⟨by rw [← lstr_isEmpty]; exact hcc.1, by rw [lstr_cons]; exact hcc.2⟩]
        rw [lstr_cons]
        congr 1
        exact ih t

lemma lstr_ciReplaceAll' (pat repl s : List Char) :
    lstr (ciReplaceAll pat repl s) = replaceAllP (lstr pat) (lstr repl) (lstr s) := by
  unfold ciReplaceAll replaceAllP
  rw [lstr_length]
  exact lstr_ciReplaceAllGo pat repl s.length s

lemma replaceAllP_free' (X B R : List Char)
    (hX : X ≠ [])
    (hXc : (')' : Char) ∉ X)
    (hRlast : R.getLast? = some ')')
    (hXR : containsSub X R = false)
    (hsuf : ∀ p u, u ++ p = X → p ≠ [] → pfx p R = false)
    (s : List Char) (hd : X = B ∨ containsSub X s = false) :
    containsSub X (replaceAllP B R s) = false := by
  unfold replaceAllP
  exact replaceAllP_free X B R hX hXc hRlast hXR hsuf s.length s (Nat.le_refl _) hd

/-- Bridge from the decidable bounded form of the boundary condition to the
quantified form used by `replaceAllP_free`. -/
lemma hsuf_of_dropChk (X R : List Char)
    (h : ∀ k, k < X.length → pfx (X.drop k) R = false) :
    ∀ p u, u ++ p = X → p ≠ [] → pfx p R = false := by
  intro p u hup hne
  have hp : p = X.drop u.length := by
    rw [← hup, List.drop_left]
  have hk : u.length < X.length := by
    rw [← hup, List.length_append]
    cases p with
    | nil => exact absurd rfl hne
    | cons a l => simp
  rw [hp]
  exact h _ hk

/-! ## Data model (from `part_003` types and the `analyze-symptoms` handler) -/

/-- A clinician-curated safety rule (`SafetyRule` in `part_003`; the `id`
field plays no role in the pipeline and is omitted). -/
structure SafetyRule where
  keyword : String
  category : String
  severity : String
  override_text : String
  deriving DecidableEq

/-- The triage result object produced by the `analyze-symptoms` handler.
`reason` and `safe_guidance` may be absent/null (modelled as `none`);
`is_override` is only ever set (to `true`) on the keyword-override branch,
so an absent field is modelled as `false`. -/
structure TriageResult where
  disease_category : String
  severity : String
  recommendation : String
  reason : Option String
  safe_guidance : Option String
  is_override : Bool
  deriving DecidableEq

/-- The fields of the parsed JSON object extracted from the model reply, as
consumed by the validator (each may be missing). -/
structure ModelJson where
  disease_category : Option String
  severity : Option String
  recommendation : Option String
  reason : Option String
  safe_guidance : Option String
  deriving DecidableEq

/-- Outcome of the upstream model call, as observed by the handler.
`content parsed` is a delivered reply body; the located-and-parsed JSON
object (the `match`/`JSON.parse` stage, an external library call) is
modelled abstractly by its result: `none` when no parseable JSON object
could be located or parsing threw, `some m` otherwise. -/
inductive AIOutcome where
  | fetchFailure (msg : String)
  | httpFailure (body : String)
  | noContent
  | content (parsed : Option ModelJson)
  deriving DecidableEq

/-- The row inserted into `patient_queries` (fields exactly as in the
`insert` calls of the handler). -/
structure PatientRecord where
  symptoms_text : String
  prescription_text : Option String
  disease_category : String
  severity : String
  recommendation : String
  reason : Option String
  language : String
  deriving DecidableEq

/-- The HTTP response of the handler: a JSON-serialized success object or
an error object with a status code. -/
inductive HandlerResponse where
  | ok (result : TriageResult)
  | err (status : Nat) (message : String)
  deriving DecidableEq

/-- Everything externally observable about one handler invocation. -/
structure HandlerOutput where
  response : HandlerResponse
  persisted : Option PatientRecord
  modelInvoked : Bool
  deriving DecidableEq

/-! ## Constants (verbatim from `part_005`) -/

def PROHIBITED_MEDICATION_TYPES : List String :=
  ["antibiotic", "steroid", "injection", "insulin",
   "controlled substance", "prescription drug", "narcotic",
   "immunosuppressant", "chemotherapy", "antiviral prescription"]

/-- The fixed neutral phrase substituted for prohibited medication terms. -/
def medNeutral : String := "medication (consult doctor)"

def validSeverities : List String := ["LOW", "MODERATE", "HIGH", "CRITICAL"]

/-- The fixed emergency-action recommendation string. -/
def emergencyAction : String := "Emergency medical attention"

/-- The fixed fallback triage result returned when the model reply cannot
be parsed or fails the required-field check. -/
def fallbackResult : TriageResult :=
  { disease_category := "General Health Concern"
    severity := "MODERATE"
    recommendation := "Consult a doctor"
    reason := some "Unable to analyze symptoms accurately. Please seek professional medical evaluation."
    safe_guidance := some "Please consult a healthcare provider for proper assessment and guidance."
    is_override := false }

/-! ## analyze-symptoms pipeline -/

/-- JavaScript whitespace as used by `trim` / `\s` (ASCII portion). -/
def jsWS (c : Char) : Bool :=
  c == ' ' || c == '\t' || c == '\n' || c == '\r' || c == '\x0b' || c == '\x0c'

/-- Models `!symptoms || symptoms.trim().length === 0`: the string is
empty or entirely whitespace. -/
def isBlank (s : String) : Bool := s.data.all jsWS

/-- JavaScript `a || b` on a possibly-absent string: the default wins when
the value is absent or empty (falsy). -/
def jsOr (o : Option String) (d : String) : String :=
  match o with
  | some t => if t.data.isEmpty then d else t
  | none => d

/-- JavaScript falsy test for a possibly-absent string field. -/
def falsyStr (o : Option String) : Bool :=
  match o with
  | some s => s.data.isEmpty
  | none => true

/-- Models `String.prototype.toUpperCase` (character-wise upper-casing,
exact for the ASCII severity keywords concerned). -/
def jsToUpper (s : String) : String := String.mk (s.data.map Char.toUpper)

/-- One rule matches when its lower-cased keyword occurs in the
(lower-cased) combined input text — `fullText.includes(rule.keyword.toLowerCase())`. -/
def ruleMatches (fullTextL : List Char) (r : SafetyRule) : Bool :=
  containsSub (lstr r.keyword.data) fullTextL

/-- The CRITICAL override result synthesized on a keyword match
(lines 67–74 of the handler). -/
def overrideResult (r : SafetyRule) (emergencyGuidance : Option String) : TriageResult :=
  { disease_category := r.category
    severity := "CRITICAL"
    recommendation := emergencyAction
    reason := some (jsOr emergencyGuidance r.override_text)
    safe_guidance := none
    is_override := true }

/-- The medication-safety filter loop (lines 222–235): the scan condition
is evaluated against the lower-casing of the ORIGINAL guidance text
(computed once, before the loop), while replacements accumulate on the
evolving string. -/
def medFilterLoop (origLower : List Char) : List String → List Char → List Char
  | [], g => g
  | t :: ts, g =>
      medFilterLoop origLower ts
        (if containsSub t.data origLower then ciReplaceAll t.data medNeutral.data g else g)

/-- The full medication-safety filter applied to a (truthy) `safe_guidance`. -/
def medicationFilter (g : String) : String :=
  String.mk (medFilterLoop (lstr g.data) PROHIBITED_MEDICATION_TYPES g.data)

/-- Severity normalization (lines 205–213): upper-case, and coerce to
MODERATE when the result is not one of the four valid severities. -/
def normalizeSeverity (s : String) : String :=
  if validSeverities.contains (jsToUpper s) then jsToUpper s else "MODERATE"

/-- The medication-safety filter step (lines 221–235): applied only when
`safe_guidance` is truthy (present and non-empty). -/
def applyGuidanceFilter (sg : Option String) : Option String :=
  match sg with
  | some g => if g.data.isEmpty then some g else some (medicationFilter g)
  | none => none

/-- The parse/validate stage (lines 180–251): required-field check,
severity normalization, CRITICAL enforcement (overwrite recommendation,
null out safe_guidance — the filter is then skipped on the null), and the
medication filter otherwise; any parse failure or missing/empty required
field degrades to `fallbackResult`. -/
def validateAnalysis (parsed : Option ModelJson) : TriageResult :=
  match parsed with
  | none => fallbackResult
  | some m =>
    if falsyStr m.disease_category || falsyStr m.severity || falsyStr m.recommendation then
      fallbackResult
    else if normalizeSeverity (m.severity.getD "") = "CRITICAL" then
      { disease_category := m.disease_category.getD ""
        severity := normalizeSeverity (m.severity.getD "")
        recommendation := emergencyAction
        reason := m.reason
        safe_guidance := none
        is_override := false }
    else
      { disease_category := m.disease_category.getD ""
        severity := normalizeSeverity (m.severity.getD "")
        recommendation := m.recommendation.getD ""
        reason := m.reason
        safe_guidance := applyGuidanceFilter m.safe_guidance
        is_override := false }

/-- The `patient_queries` row built from the inputs and a result
(lines 77–85 / 254–262; `prescriptionText || null` maps the empty string
to null). -/
def mkRecord (symptoms prescriptionText language : String) (r : TriageResult) : PatientRecord :=
  { symptoms_text := symptoms
    prescription_text := if prescriptionText = "" then none else some prescriptionText
    disease_category := r.disease_category
    severity := r.severity
    recommendation := r.recommendation
    reason := r.reason
    language := language }

/-- The `analyze-symptoms` handler (part_005 lines 27–277).  Collaborators
are passed as values: `rules` is the fetched `safety_rules` collection in
iteration order, `emergencyGuidance` the localized guidance text for
(`emergency`, `language`) if any, and `ai` the outcome of the model call
(consulted only when no rule matches). -/
def analyzeSymptoms (symptoms prescriptionText language : String)
    (rules : List SafetyRule) (emergencyGuidance : Option String)
    (ai : AIOutcome) : HandlerOutput :=
  if isBlank symptoms then
    { response := .err 400 "Symptoms text is required"
      persisted := none
      modelInvoked := false }
  else
    match rules.find? (ruleMatches (lstr ((symptoms ++ " " ++ prescriptionText).data))) with
    | some r =>
      { response := .ok (overrideResult r emergencyGuidance)
        persisted := some (mkRecord symptoms prescriptionText language
          (overrideResult r emergencyGuidance))
        modelInvoked := false }
    | none =>
      match ai with
      | .fetchFailure msg =>
        { response := .err 500 msg, persisted := none, modelInvoked := true }
      | .httpFailure body =>
        { response := .err 500 ("AI API error: " ++ body)
          persisted := none
          modelInvoked := true }
      | .noContent =>
        { response := .err 500 "No response from AI"
          persisted := none
          modelInvoked := true }
      | .content parsed =>
        { response := .ok (validateAnalysis parsed)
          persisted := some (mkRecord symptoms prescriptionText language
            (validateAnalysis parsed))
          modelInvoked := true }

/-! ## medication-info pipeline (part_005 lines 289–468) -/

/-- The parsed JSON object of the medication-info model reply. -/
structure MedJson where
  medicine_name : Option String
  overview : Option String
  common_uses : Option String
  dosage_info : Option String
  side_effects : Option String
  warnings : Option String
  when_to_consult : Option String
  disclaimer : Option String
  deriving DecidableEq

/-- The validated medication-info object returned to the caller. -/
structure MedicationInfo where
  medicine_name : String
  overview : String
  common_uses : String
  dosage_info : String
  side_effects : String
  warnings : String
  when_to_consult : String
  disclaimer : String
  deriving DecidableEq

/-- Unit alternatives of the numeric-dosage regex
`\d+\s*(mg|ml|tablets?|pills?|times?|hours?)`: an unanchored match exists
exactly when one of these stems follows the digits/whitespace (the optional
`s?` only extends a match). -/
def dosageUnits : List (List Char) :=
  ["mg".data, "ml".data, "tablet".data, "pill".data, "time".data, "hour".data]

/-- Some unit stem starts at the head of the string. -/
def unitAt (s : List Char) : Bool := dosageUnits.any (fun w => pfx w s)

/-- Existence of a match of the numeric-dosage regex in the string: at some
position a digit, then the remaining digit run, then optional whitespace,
then a unit stem. -/
def dosageMatch : List Char → Bool
  | [] => false
  | c :: t =>
    (c.isDigit && unitAt ((t.dropWhile Char.isDigit).dropWhile jsWS)) || dosageMatch t

/-- The fixed replacement for a detected numeric dosage (line 427). -/
def dosageFixed : String :=
  "Follow the doctor\x27s prescription or label instructions. Do not self-medicate."

/-- Dosage sanitization (lines 423–428): the regex is tested against the
lower-cased field (case-insensitively); on a match the entire field is
replaced. -/
def sanitizeDosage (d : String) : String :=
  if dosageMatch (lstr d.data) then dosageFixed else d

/-- The fixed canonical disclaimer (line 433). -/
def disclaimerFixed : String :=
  "This information is for educational purposes only and does not replace professional medical advice. Always consult a qualified healthcare provider."

/-- Disclaimer enforcement (lines 430–434). -/
def enforceDisclaimer (d : String) : String :=
  if !containsSub "educational".data (lstr d.data)
      || !containsSub "not replace".data (lstr d.data) then
    disclaimerFixed
  else d

/-- The fixed fallback medication-info object (lines 443–452). -/
def medFallback (medicineName : String) : MedicationInfo :=
  { medicine_name := medicineName
    overview := "Unable to retrieve information. Please verify the medicine name with a pharmacist."
    common_uses := "Information not available"
    dosage_info := "Consult a healthcare provider for proper dosage instructions"
    side_effects := "Consult a healthcare provider for side effect information"
    warnings := "Always consult a qualified healthcare provider before taking any medication"
    when_to_consult := "Consult a doctor or pharmacist for guidance on this medicine"
    disclaimer := "This information is for educational purposes only and does not replace professional medical advice." }

/-- The parse/validate stage of the medication-info handler
(lines 394–453): eight required fields, dosage sanitization, disclaimer
enforcement; any failure degrades to the fallback object. -/
def validateMedInfo (medicineName : String) (parsed : Option MedJson) : MedicationInfo :=
  match parsed with
  | none => medFallback medicineName
  | some m =>
    if falsyStr m.medicine_name || falsyStr m.overview || falsyStr m.common_uses
        || falsyStr m.dosage_info || falsyStr m.side_effects || falsyStr m.warnings
        || falsyStr m.when_to_consult || falsyStr m.disclaimer then
      medFallback medicineName
    else
      { medicine_name := m.medicine_name.getD ""
        overview := m.overview.getD ""
        common_uses := m.common_uses.getD ""
        dosage_info := sanitizeDosage (m.dosage_info.getD "")
        side_effects := m.side_effects.getD ""
        warnings := m.warnings.getD ""
        when_to_consult := m.when_to_consult.getD ""
        disclaimer := enforceDisclaimer (m.disclaimer.getD "") }

/-! ## Supporting lemmas about the pipeline functions -/

/-- Once the evolving guidance text is free of (case-insensitive)
occurrences of `X`, the remaining filter iterations keep it free. -/
lemma medFilterLoop_preserves (X : List Char)
    (hX : X ≠ []) (hXc : (')' : Char) ∉ X)
    (hXR : containsSub X (lstr medNeutral.data) = false)
    (hsuf : ∀ p u, u ++ p = X → p ≠ [] → pfx p (lstr medNeutral.data) = false) :
    ∀ (ts : List String) (ol g : List Char), containsSub X (lstr g) = false →
      containsSub X (lstr (medFilterLoop ol ts g)) = false := by
  have hRlast : (lstr medNeutral.data).getLast? = some ')' := by decide
  intro ts
  induction ts with
  | nil => intro ol g h; simpa [medFilterLoop] using h
  | cons t ts ih =>
    intro ol g h
    simp only [medFilterLoop]
    apply ih
    by_cases hcond : containsSub t.data ol = true
    · rw [if_pos hcond, lstr_ciReplaceAll']
      exact replaceAllP_free' X (lstr t.data) (lstr medNeutral.data)
        hX hXc hRlast hXR hsuf _ (Or.inr h)
    · rw [if_neg hcond]
      exact h

/-- If some term of the scan list lower-cases to `X` and its (stale) scan
condition holds, the filter output is free of case-insensitive occurrences
of `X`. -/
lemma medFilterLoop_hits (X : List Char)
    (hX : X ≠ []) (hXc : (')' : Char) ∉ X)
    (hXR : containsSub X (lstr medNeutral.data) = false)
    (hsuf : ∀ p u, u ++ p = X → p ≠ [] → pfx p (lstr medNeutral.data) = false) :
    ∀ (ts : List String) (ol g : List Char),
      (∃ t ∈ ts, lstr t.data = X ∧ containsSub t.data ol = true) →
      containsSub X (lstr (medFilterLoop ol ts g)) = false := by
  have hRlast : (lstr medNeutral.data).getLast? = some ')' := by decide
  intro ts
  induction ts with
  | nil =>
    intro ol g h
    rcases h with ⟨t, ht, _⟩
    simp at ht
  | cons t ts ih =>
    intro ol g h
    rcases h with ⟨t', ht', hlX, hcond⟩
    rcases List.mem_cons.mp ht' with rfl | htail
    · simp only [medFilterLoop]
      rw [if_pos hcond]
      apply medFilterLoop_preserves X hX hXc hXR hsuf
      rw [lstr_ciReplaceAll']
      exact replaceAllP_free' X (lstr t'.data) (lstr medNeutral.data)
        hX hXc hRlast hXR hsuf _ (Or.inl hlX.symm)
    · simp only [medFilterLoop]
      exact ih ol _ ⟨t', htail, hlX, hcond⟩

/-- The per-term side conditions of the filter lemmas, checked at once for
all ten prohibited terms. -/
lemma prohibited_side_conditions :
    ∀ T ∈ PROHIBITED_MEDICATION_TYPES,
      lstr T.data = T.data ∧ T.data ≠ [] ∧ ((')' : Char) ∉ T.data) ∧
      containsSub T.data (lstr medNeutral.data) = false ∧
      (∀ k, k < T.data.length → pfx (T.data.drop k) (lstr medNeutral.data) = false) := by
  decide

/-- `find?` returns the first element satisfying the test. -/
lemma find?_first {α : Type} (p : α → Bool) (post : List α) (r : α) :
    ∀ pre : List α, (∀ q ∈ pre, p q = false) → p r = true →
      (pre ++ r :: post).find? p = some r := by
  intro pre
  induction pre with
  | nil => intro _ hr; rw [List.nil_append, List.find?_cons_of_pos _ hr]
  | cons q pre ih =>
    intro hpre hr
    have hq : p q = false := hpre q (List.mem_cons_self _ _)
    rw [List.cons_append, List.find?_cons_of_neg _ (by simp [hq])]
    exact ih (fun x hx => hpre x (List.mem_cons_of_mem _ hx)) hr

/-- The validator output itself satisfies the CRITICAL invariant. -/
lemma validateAnalysis_critical (parsed : Option ModelJson)
    (h : (validateAnalysis parsed).severity = "CRITICAL") :
    (validateAnalysis parsed).recommendation = emergencyAction ∧
    (validateAnalysis parsed).safe_guidance = none := by
  cases parsed with
  | none => exact absurd h (by decide)
  | some m =>
    by_cases hf : (falsyStr m.disease_category || falsyStr m.severity
        || falsyStr m.recommendation) = true
    · simp only [validateAnalysis] at h ⊢
      rw [if_pos hf] at h
      exact absurd h (by decide)
    · simp only [validateAnalysis] at h ⊢
      rw [if_neg hf] at h ⊢
      by_cases hcrit : normalizeSeverity (m.severity.getD "") = "CRITICAL"
      · rw [if_pos hcrit]
        exact ⟨rfl, rfl⟩
      · rw [if_neg hcrit] at h
        exact absurd h hcrit

/-! ## Claim theorems -/

/-- C1: for every result returned by the triage pipeline — keyword-override
branch or model-response validator — severity CRITICAL implies the fixed
emergency recommendation and null safe_guidance. -/
theorem critical_forces_emergency (symptoms prescriptionText language : String)
    (rules : List SafetyRule) (guid : Option String) (ai : AIOutcome) (r : TriageResult)
    (hok : (analyzeSymptoms symptoms prescriptionText language rules guid ai).response
      = .ok r)
    (hcrit : r.severity = "CRITICAL") :
    r.recommendation = emergencyAction ∧ r.safe_guidance = none := by
  unfold analyzeSymptoms at hok
  by_cases hb : isBlank symptoms = true
  · rw [if_pos hb] at hok
    exact absurd hok (by simp)
  · rw [if_neg hb] at hok
    cases hf : List.find? (ruleMatches (lstr ((symptoms ++ " " ++ prescriptionText).data)))
        rules with
    | some q =>
      simp only [hf] at hok
      injection hok with h
      subst h
      exact ⟨rfl, rfl⟩
    | none =>
      simp only [hf] at hok
      cases ai with
      | fetchFailure msg => exact absurd hok (by simp)
      | httpFailure body => exact absurd hok (by simp)
      | noContent => exact absurd hok (by simp)
      | content parsed =>
        simp only at hok
        injection hok with h
        subst h
        exact validateAnalysis_critical parsed hcrit

/-- C1 witness: the override branch on a concrete matching keyword yields
a CRITICAL result with the emergency recommendation and null guidance. -/
theorem critical_forces_emergency_w :
    (overrideResult ⟨"chest pain", "Cardiac Emergency", "CRITICAL", "Go to ER"⟩ none).recommendation
        = emergencyAction ∧
    (overrideResult ⟨"chest pain", "Cardiac Emergency", "CRITICAL", "Go to ER"⟩ none).safe_guidance
        = none :=
  critical_forces_emergency "severe chest pain" "" "en"
    [⟨"chest pain", "Cardiac Emergency", "CRITICAL", "Go to ER"⟩] none (.content none)
    (overrideResult ⟨"chest pain", "Cardiac Emergency", "CRITICAL", "Go to ER"⟩ none)
    (by decide) (by decide)

/-- C2 counterexample: the code joins symptom and prescription text with a
single space, so a keyword that is a substring of the PLAIN concatenation
(as the claim states it) need not match: with symptoms "che" and
prescription "st pain", the keyword "chest pain" is contained in the plain
concatenation, yet the model IS invoked and the returned result is the
non-override fallback. -/
theorem first_match_override_cex :
    containsSub (lstr "chest pain".data) (lstr ("che" ++ "st pain").data) = true ∧
    (analyzeSymptoms "che" "st pain" "en"
        [⟨"chest pain", "Cardiac Emergency", "CRITICAL", "Seek emergency care now"⟩]
        none (.content none)).modelInvoked = true ∧
    (analyzeSymptoms "che" "st pain" "en"
        [⟨"chest pain", "Cardiac Emergency", "CRITICAL", "Seek emergency care now"⟩]
        none (.content none)).response = .ok fallbackResult := by
  decide

/-- C2 (amended): for the SPACE-SEPARATED concatenation actually built by
the code, the first rule (in iteration order) whose keyword matches
case-insensitively yields the CRITICAL override result — category from the
matched rule, safe_guidance null, is_override true — and the model
collaborator is never invoked. -/
theorem first_match_override (symptoms prescriptionText language : String)
    (pre post : List SafetyRule) (r : SafetyRule) (guid : Option String) (ai : AIOutcome)
    (hnb : isBlank symptoms = false)
    (hpre : ∀ q ∈ pre,
      ruleMatches (lstr ((symptoms ++ " " ++ prescriptionText).data)) q = false)
    (hr : ruleMatches (lstr ((symptoms ++ " " ++ prescriptionText).data)) r = true) :
    analyzeSymptoms symptoms prescriptionText language (pre ++ r :: post) guid ai
      = { response := .ok (overrideResult r guid)
          persisted := some (mkRecord symptoms prescriptionText language (overrideResult r guid))
          modelInvoked := false } := by
  unfold analyzeSymptoms
  rw [if_neg (by simp [hnb])]
  rw [find?_first _ post r pre hpre hr]

/-- C2 witness: a non-matching rule followed by a matching one — the
second rule produces the override. -/
theorem first_match_override_w :
    analyzeSymptoms "I have chest pain" "" "en"
        ([⟨"snake bite", "Envenomation", "CRITICAL", "Antivenom needed"⟩] ++
          ⟨"chest pain", "Cardiac Emergency", "CRITICAL", "Go to ER"⟩ :: []) none
        (.content none)
      = { response := .ok (overrideResult
            ⟨"chest pain", "Cardiac Emergency", "CRITICAL", "Go to ER"⟩ none)
          persisted := some (mkRecord "I have chest pain" "" "en"
            (overrideResult ⟨"chest pain", "Cardiac Emergency", "CRITICAL", "Go to ER"⟩ none))
          modelInvoked := false } :=
  first_match_override "I have chest pain" "" "en"
    [⟨"snake bite", "Envenomation", "CRITICAL", "Antivenom needed"⟩] []
    ⟨"chest pain", "Cardiac Emergency", "CRITICAL", "Go to ER"⟩ none (.content none)
    (by decide) (by decide) (by decide)

/-- C3 counterexample: a failed model call (non-success HTTP status) is
surfaced to the caller as a hard 500 error response, not degraded to the
fixed fallback result. -/
theorem model_failure_surfaces_cex :
    (analyzeSymptoms "fever" "" "en" [] none (.httpFailure "boom")).response
        = .err 500 "AI API error: boom" ∧
    (analyzeSymptoms "fever" "" "en" [] none (.httpFailure "boom")).response
        ≠ .ok fallbackResult := by
  decide

/-- C3 (amended): when the upstream model call errors or returns a
non-success status the handler throws to its outer catch and returns an
HTTP 500 error object; the fixed fallback TriageResult is returned only
when a model reply is delivered but cannot be parsed/validated. -/
theorem model_failure_surfaces_500 (symptoms prescriptionText language : String)
    (rules : List SafetyRule) (guid : Option String) (body msg : String)
    (hnb : isBlank symptoms = false)
    (hnm : rules.find? (ruleMatches (lstr ((symptoms ++ " " ++ prescriptionText).data)))
      = none) :
    (analyzeSymptoms symptoms prescriptionText language rules guid (.httpFailure body)).response
        = .err 500 ("AI API error: " ++ body) ∧
    (analyzeSymptoms symptoms prescriptionText language rules guid (.fetchFailure msg)).response
        = .err 500 msg ∧
    (analyzeSymptoms symptoms prescriptionText language rules guid (.content none)).response
        = .ok fallbackResult := by
  refine ⟨?_, ?_, ?_⟩ <;>
    (unfold analyzeSymptoms; rw [if_neg (by simp [hnb]), hnm]; try rfl)

/-- C3 witness: concrete failure and unparseable-reply cases. -/
theorem model_failure_surfaces_500_w :
    (analyzeSymptoms "fever" "" "en" [] none (.httpFailure "overloaded")).response
        = .err 500 ("AI API error: " ++ "overloaded") ∧
    (analyzeSymptoms "fever" "" "en" [] none (.fetchFailure "network down")).response
        = .err 500 "network down" ∧
    (analyzeSymptoms "fever" "" "en" [] none (.content none)).response
        = .ok fallbackResult :=
  model_failure_surfaces_500 "fever" "" "en" [] none "overloaded" "network down"
    (by decide) (by decide)

/-- C4: the handler rejects any request whose symptom text is empty or
blank, even when the prescription text is non-empty — contradicting the
documented contract that only both-empty inputs are rejected (the
repository's own frontend forwards prescription-only requests). -/
theorem blank_symptoms_rejected_with_prescription :
    (analyzeSymptoms "" "aspirin 500mg" "en" [] none (.content none)).response
        = .err 400 "Symptoms text is required" ∧
    (analyzeSymptoms "" "aspirin 500mg" "en" [] none (.content none)).modelInvoked
        = false := by
  decide

/-- C5: whenever no parseable JSON object is located in the model reply,
or the parsed object is missing (or has an empty) disease_category,
severity, or recommendation, the validator returns exactly the fixed
fallback result, deterministically. -/
theorem fallback_on_unparseable (parsed : Option ModelJson)
    (h : parsed = none ∨ ∃ m, parsed = some m ∧
          (falsyStr m.disease_category = true ∨ falsyStr m.severity = true ∨
            falsyStr m.recommendation = true)) :
    validateAnalysis parsed = fallbackResult := by
  rcases h with rfl | ⟨m, rfl, hm⟩
  · rfl
  · simp only [validateAnalysis]
    rw [if_pos]
    rcases hm with h | h | h <;> simp [h]

/-- C5 witness: a parsed object with an empty severity degrades to the
fallback. -/
theorem fallback_on_unparseable_w :
    validateAnalysis (some ⟨some "Fever", some "", some "Rest", none, none⟩)
      = fallbackResult :=
  fallback_on_unparseable (some ⟨some "Fever", some "", some "Rest", none, none⟩)
    (Or.inr ⟨⟨some "Fever", some "", some "Rest", none, none⟩, rfl,
      Or.inr (Or.inl (by decide))⟩)

/-- C6: for a parsed object passing the required-field check, severity is
upper-cased and coerced to MODERATE when not one of the four valid values,
and the request still produces a normal validated result (category taken
from the model output, not the fallback path). -/
theorem severity_normalized (m : ModelJson)
    (h1 : falsyStr m.disease_category = false) (h2 : falsyStr m.severity = false)
    (h3 : falsyStr m.recommendation = false) :
    (validateAnalysis (some m)).severity
        = (if validSeverities.contains (jsToUpper (m.severity.getD "")) then
            jsToUpper (m.severity.getD "") else "MODERATE") ∧
    (validateAnalysis (some m)).disease_category = m.disease_category.getD "" := by
  simp only [validateAnalysis]
  rw [if_neg (by simp [h1, h2, h3])]
  by_cases hcrit : normalizeSeverity (m.severity.getD "") = "CRITICAL"
  · rw [if_pos hcrit]
    exact ⟨rfl, rfl⟩
  · rw [if_neg hcrit]
    exact ⟨rfl, rfl⟩

/-- C6 witness: the unknown severity "severe" is coerced to MODERATE and
the result keeps the model's category. -/
theorem severity_normalized_w :
    (validateAnalysis (some ⟨some "Common Cold", some "severe", some "Rest at home",
        none, none⟩)).severity
        = (if validSeverities.contains (jsToUpper ((some "severe").getD "")) then
            jsToUpper ((some "severe").getD "") else "MODERATE") ∧
    (validateAnalysis (some ⟨some "Common Cold", some "severe", some "Rest at home",
        none, none⟩)).disease_category = (some "Common Cold").getD "" :=
  severity_normalized ⟨some "Common Cold", some "severe", some "Rest at home", none, none⟩
    (by decide) (by decide) (by decide)

/-- C7: whenever a validated model result's safe_guidance contains a
prohibited-medication term (in any letter case), the safe_guidance of the
returned result — if present at all — contains zero case-insensitive
occurrences of that term. -/
theorem prohibited_terms_filtered (g T : String)
    (hT : T ∈ PROHIBITED_MEDICATION_TYPES) (m : ModelJson)
    (h1 : falsyStr m.disease_category = false) (h2 : falsyStr m.severity = false)
    (h3 : falsyStr m.recommendation = false)
    (hsg : m.safe_guidance = some g)
    (hcont : containsSub (lstr T.data) (lstr g.data) = true) :
    ∀ g', (validateAnalysis (some m)).safe_guidance = some g' →
      containsSub (lstr T.data) (lstr g'.data) = false := by
  intro g' hg'
  obtain ⟨hl, hne, hpar, hXR, hdrop⟩ := prohibited_side_conditions T hT
  simp only [validateAnalysis] at hg'
  rw [if_neg (by simp [h1, h2, h3])] at hg'
  by_cases hcrit : normalizeSeverity (m.severity.getD "") = "CRITICAL"
  · rw [if_pos hcrit] at hg'
    exact absurd hg' (by simp)
  · rw [if_neg hcrit] at hg'
    have hg2 : applyGuidanceFilter m.safe_guidance = some g' := hg'
    rw [hsg] at hg2
    simp only [applyGuidanceFilter] at hg2
    by_cases hemp : g.data.isEmpty = true
    · have hgd : g.data = [] := by
        cases hgd : g.data with
        | nil => rfl
        | cons a l => rw [hgd] at hemp; simp [List.isEmpty] at hemp
      rw [hgd] at hcont
      have : containsSub (lstr T.data) (lstr []) = false := by
        apply containsSub_nonnil_nil
        rw [hl]
        exact hne
      rw [this] at hcont
      exact absurd hcont (by simp)
    · rw [if_neg hemp] at hg2
      injection hg2 with hg3
      subst hg3
      show containsSub (lstr T.data)
        (lstr (medFilterLoop (lstr g.data) PROHIBITED_MEDICATION_TYPES g.data)) = false
      rw [hl]
      rw [hl] at hcont
      exact medFilterLoop_hits T.data hne hpar hXR (hsuf_of_dropChk _ _ hdrop)
        PROHIBITED_MEDICATION_TYPES (lstr g.data) g.data ⟨T, hT, hl, hcont⟩

/-- C7 witness: "ANTIBIOTIC" in the guidance is removed (case-insensitively)
by the filter. -/
theorem prohibited_terms_filtered_w :
    containsSub (lstr "antibiotic".data)
      (lstr (medicationFilter "Take an ANTIBIOTIC twice daily").data) = false :=
  prohibited_terms_filtered "Take an ANTIBIOTIC twice daily" "antibiotic" (by decide)
    ⟨some "Infection", some "LOW", some "Rest", none,
      some "Take an ANTIBIOTIC twice daily"⟩
    (by decide) (by decide) (by decide) rfl (by decide)
    (medicationFilter "Take an ANTIBIOTIC twice daily") (by decide)

/-- C8: a medication-info result whose dosage_info matches the
numeric-dosage pattern has the whole field replaced by the fixed string,
which no longer matches the pattern. -/
theorem dosage_pattern_sanitized (medicineName : String) (m : MedJson)
    (h1 : falsyStr m.medicine_name = false) (h2 : falsyStr m.overview = false)
    (h3 : falsyStr m.common_uses = false) (h4 : falsyStr m.dosage_info = false)
    (h5 : falsyStr m.side_effects = false) (h6 : falsyStr m.warnings = false)
    (h7 : falsyStr m.when_to_consult = false) (h8 : falsyStr m.disclaimer = false)
    (hmatch : dosageMatch (lstr (m.dosage_info.getD "").data) = true) :
    (validateMedInfo medicineName (some m)).dosage_info = dosageFixed ∧
    dosageMatch (lstr ((validateMedInfo medicineName (some m)).dosage_info).data) = false := by
  have hd : (validateMedInfo medicineName (some m)).dosage_info = dosageFixed := by
    simp only [validateMedInfo]
    rw [if_neg (by simp [h1, h2, h3, h4, h5, h6, h7, h8])]
    show sanitizeDosage (m.dosage_info.getD "") = dosageFixed
    simp [sanitizeDosage, hmatch]
  refine ⟨hd, ?_⟩
  rw [hd]
  decide

/-- C8 witness: "take 500mg twice daily" is replaced by the fixed string. -/
theorem dosage_pattern_sanitized_w :
    (validateMedInfo "Paracetamol" (some ⟨some "Paracetamol", some "Pain reliever",
        some "Fever and mild pain", some "take 500mg twice daily", some "Nausea",
        some "Overdose risk", some "If fever persists",
        some "This is educational and does not replace professional advice"⟩)).dosage_info
      = dosageFixed ∧
    dosageMatch (lstr ((validateMedInfo "Paracetamol" (some ⟨some "Paracetamol",
        some "Pain reliever", some "Fever and mild pain", some "take 500mg twice daily",
        some "Nausea", some "Overdose risk", some "If fever persists",
        some "This is educational and does not replace professional advice"⟩)).dosage_info).data)
      = false :=
  dosage_pattern_sanitized "Paracetamol"
    ⟨some "Paracetamol", some "Pain reliever", some "Fever and mild pain",
      some "take 500mg twice daily", some "Nausea", some "Overdose risk",
      some "If fever persists",
      some "This is educational and does not replace professional advice"⟩
    (by decide) (by decide) (by decide) (by decide) (by decide) (by decide)
    (by decide) (by decide) (by decide)

/-- C9 counterexample: the persisted `patient_queries` row does NOT contain
the `safe_guidance` and `is_override` output fields — two results that
differ exactly in those fields persist to identical records, so no re-read
of the record can restore them field-for-field. -/
theorem persist_roundtrip_cex :
    mkRecord "fever" "" "en"
        ⟨"Flu", "LOW", "Rest", some "mild viral illness", some "drink water", false⟩
      = mkRecord "fever" "" "en"
        ⟨"Flu", "LOW", "Rest", some "mild viral illness", none, true⟩ ∧
    (⟨"Flu", "LOW", "Rest", some "mild viral illness", some "drink water", false⟩
        : TriageResult)
      ≠ ⟨"Flu", "LOW", "Rest", some "mild viral illness", none, true⟩ := by
  decide

/-- C9 (amended): the persisted record agrees with the returned result on
the fields the insert actually writes — disease_category, severity,
recommendation, reason — plus the original inputs and language
(`safe_guidance` and `is_override` are not persisted). -/
theorem persisted_fields_match (symptoms prescriptionText language : String)
    (rules : List SafetyRule) (guid : Option String) (ai : AIOutcome)
    (r : TriageResult) (rec : PatientRecord)
    (hok : (analyzeSymptoms symptoms prescriptionText language rules guid ai).response
      = .ok r)
    (hp : (analyzeSymptoms symptoms prescriptionText language rules guid ai).persisted
      = some rec) :
    rec.symptoms_text = symptoms ∧ rec.language = language ∧
    rec.prescription_text = (if prescriptionText = "" then none else some prescriptionText) ∧
    rec.disease_category = r.disease_category ∧ rec.severity = r.severity ∧
    rec.recommendation = r.recommendation ∧ rec.reason = r.reason := by
  unfold analyzeSymptoms at hok hp
  by_cases hb : isBlank symptoms = true
  · rw [if_pos hb] at hp
    exact absurd hp (by simp)
  · rw [if_neg hb] at hok hp
    cases hf : List.find? (ruleMatches (lstr ((symptoms ++ " " ++ prescriptionText).data)))
        rules with
    | some q =>
      simp only [hf] at hok hp
      injection hok with h1
      injection hp with h2
      subst h1
      subst h2
      exact ⟨rfl, rfl, rfl, rfl, rfl, rfl, rfl⟩
    | none =>
      simp only [hf] at hok hp
      cases ai with
      | fetchFailure msg => exact absurd hp (by simp)
      | httpFailure body => exact absurd hp (by simp)
      | noContent => exact absurd hp (by simp)
      | content parsed =>
        simp only at hok hp
        injection hok with h1
        injection hp with h2
        subst h1
        subst h2
        exact ⟨rfl, rfl, rfl, rfl, rfl, rfl, rfl⟩

/-- C9 witness: the validator fallback path persists a record agreeing on
the four persisted output fields and the inputs. -/
theorem persisted_fields_match_w :
    (mkRecord "fever" "two tablets" "en" fallbackResult).symptoms_text = "fever" ∧
    (mkRecord "fever" "two tablets" "en" fallbackResult).language = "en" ∧
    (mkRecord "fever" "two tablets" "en" fallbackResult).prescription_text
      = (if "two tablets" = "" then none else some "two tablets") ∧
    (mkRecord "fever" "two tablets" "en" fallbackResult).disease_category
      = fallbackResult.disease_category ∧
    (mkRecord "fever" "two tablets" "en" fallbackResult).severity
      = fallbackResult.severity ∧
    (mkRecord "fever" "two tablets" "en" fallbackResult).recommendation
      = fallbackResult.recommendation ∧
    (mkRecord "fever" "two tablets" "en" fallbackResult).reason = fallbackResult.reason :=
  persisted_fields_match "fever" "two tablets" "en" [] none (.content none)
    fallbackResult (mkRecord "fever" "two tablets" "en" fallbackResult)
    (by decide) (by decide)

/-- C10: any rule with an empty keyword matches every request (the empty
string is a substring of every string), so every non-rejected request
short-circuits to a CRITICAL override result and the model collaborator is
never invoked. -/
theorem empty_keyword_short_circuits (symptoms prescriptionText language : String)
    (rules : List SafetyRule) (guid : Option String) (ai : AIOutcome)
    (hnb : isBlank symptoms = false)
    (hempty : ∃ q ∈ rules, q.keyword = "") :
    (analyzeSymptoms symptoms prescriptionText language rules guid ai).modelInvoked
        = false ∧
    ∃ res, (analyzeSymptoms symptoms prescriptionText language rules guid ai).response
        = .ok res ∧ res.severity = "CRITICAL" ∧ res.safe_guidance = none ∧
        res.is_override = true := by
  obtain ⟨q, hq, hqk⟩ := hempty
  cases hf : List.find? (ruleMatches (lstr ((symptoms ++ " " ++ prescriptionText).data)))
      rules with
  | none =>
    exfalso
    have hnone := List.find?_eq_none.mp hf q hq
    apply hnone
    unfold ruleMatches
    rw [hqk]
    exact containsSub_nil_pat _
  | some q' =>
    unfold analyzeSymptoms
    rw [if_neg (by simp [hnb]), hf]
    exact ⟨rfl, overrideResult q' guid, rfl, rfl, rfl, rfl⟩

/-- C10 witness: a singleton rule set with an empty keyword overrides a
benign request. -/
theorem empty_keyword_short_circuits_w :
    (analyzeSymptoms "mild cough" "" "en" [⟨"", "General", "HIGH", "See a doctor"⟩]
        none (.content none)).modelInvoked = false ∧
    ∃ res, (analyzeSymptoms "mild cough" "" "en" [⟨"", "General", "HIGH", "See a doctor"⟩]
        none (.content none)).response
        = .ok res ∧ res.severity = "CRITICAL" ∧ res.safe_guidance = none ∧
        res.is_override = true :=
  empty_keyword_short_circuits "mild cough" "" "en"
    [⟨"", "General", "HIGH", "See a doctor"⟩] none (.content none)
    (by decide) ⟨⟨"", "General", "HIGH", "See a doctor"⟩, by decide, rfl⟩

end CureSight
